import Mathlib

/-!
Verification development for the TWA (thermal-wave-analysis) pipeline of this
repository.  The Python modules `thermal_analysis/fitting.py`,
`thermal_analysis/physics.py`, `thermal_analysis/file_parser.py`,
`thermal_analysis/analyzer.py` and `thermal_analysis/interactive_ui.py` are
shallowly embedded over an arbitrary linear ordered field `α` (instantiated at
`ℝ` for statements that mention `π`, `sqrt` or `log`, and at `ℚ` for concrete
evaluations).  Numpy arrays become lists, Python `dict`s become association
lists, and an uncaught exception is modelled by `Option.none`.
-/

namespace TWA

variable {α : Type} [LinearOrderedField α]

/-- Numpy fancy indexing `xs[idx]`: `none` models the `IndexError` raised when
some index is out of bounds. -/
def npIndex (xs : List α) : List Nat → Option (List α)
  | [] => some []
  | i :: is => do
    let a ← xs[i]?
    let rest ← npIndex xs is
    pure (a :: rest)

/-- Selection of the elements of `xs` at the positions given by `idx`, with a
junk default out of range.  Used only to state properties about in-range
selections; `npIndex` is the faithful (fallible) embedding. -/
def selectD (xs : List α) (idx : List Nat) : List α :=
  idx.map fun i => xs.getD i 0

/-- Mean of a list, `sum / n` (0 for the empty list, by the field convention
`x / 0 = 0`; every use below is guarded by `2 ≤ n`). -/
def mean (xs : List α) : α := xs.sum / xs.length

/-- Centered mixed second moment with the `1/n` factor of `np.cov(x, y, bias=1)`:
`Σ (x i - mean x) * (y i - mean y) / n`.  `scipy.stats.linregress` obtains its
`ssxm`, `ssxym`, `ssym` this way. -/
def covB (xs ys : List α) : α :=
  (List.zipWith (fun a b => (a - mean xs) * (b - mean ys)) xs ys).sum / xs.length

/-- Result record of `scipy.stats.linregress`, restricted to the fields the
repository uses (`slope`, `intercept`, and the square of `r_value`). -/
structure LinregressResult (α : Type) where
  slope : α
  intercept : α
  r2 : α
deriving DecidableEq, Repr

/-- Shallow embedding of `scipy.stats.linregress(x, y)`.  `none` models the
`ValueError` scipy raises when all x values are identical and `len(x) > 1`.
scipy computes `r = ssxym / sqrt(ssxm * ssym)` (0 when `ssxm` or `ssym` is 0),
clips it into `[-1, 1]`, and the caller squares it; the square of the clipped
value is `min (ssxym^2 / (ssxm * ssym)) 1`, which is the `r2` stored here. -/
def linregress (x y : List α) : Option (LinregressResult α) :=
  if 1 < x.length ∧ x.all (fun a => decide (a = x.headD 0)) then none
  else
    let ssxm := covB x x
    let ssym := covB y y
    let ssxym := covB x y
    let slope := ssxym / ssxm
    let intercept := mean y - slope * mean x
    let r2 := if ssxm = 0 ∨ ssym = 0 then 0 else min (ssxym ^ 2 / (ssxm * ssym)) 1
    some ⟨slope, intercept, r2⟩

/-- Output record of one linear regression (`FitResult` in
`thermal_analysis/fitting.py`). -/
structure FitResult (α : Type) where
  slope : α
  intercept : α
  r2 : α
  is_valid : Bool
deriving DecidableEq, Repr

/-- Shallow embedding of `extract_subset` in `thermal_analysis/fitting.py`:
empty index list short-circuits to two empty arrays, otherwise numpy fancy
indexing of both arrays (fallible). -/
def extract_subset (x y : List α) (indices : List Nat) :
    Option (List α × List α) :=
  if indices.length = 0 then some ([], [])
  else do
    let xs ← npIndex x indices
    let ys ← npIndex y indices
    pure (xs, ys)

/-- Shallow embedding of `linear_regression_subset` in
`thermal_analysis/fitting.py`.  `none` models an uncaught exception: an
out-of-range `IndexError` from the fancy indexing in `extract_subset`, or the
constant-x `ValueError` from `scipy.stats.linregress`. -/
def linear_regression_subset (x y : List α) (indices : Option (List Nat)) :
    Option (FitResult α) := do
  let s ← match indices with
    | some idx => extract_subset x y idx
    | none => pure (x, y)
  if s.1.length < 2 then pure ⟨0, 0, 0, false⟩
  else do
    let lr ← linregress s.1 s.2
    pure ⟨lr.slope, lr.intercept, lr.r2, true⟩

/-- Sum of squared vertical residuals of the line `y = a * x + b` over the
paired samples: the quantity ordinary least squares minimizes. -/
def sumSqResid (xs ys : List α) (a b : α) : α :=
  (List.zipWith (fun x y => (y - (a * x + b)) ^ 2) xs ys).sum

/-- Centered mixed second moment without normalization:
`Σ (x i - mean x) * (y i - mean y)`. -/
def ccross (xs ys : List α) : α :=
  (List.zipWith (fun a b => (a - mean xs) * (b - mean ys)) xs ys).sum

/-- Square of the Pearson correlation coefficient of two equal-length samples,
`Sxy^2 / (Sxx * Syy)` over centered moments (by the field convention this is 0
when a sample is constant, where the coefficient itself is undefined). -/
def pearsonSq (xs ys : List α) : α :=
  ccross xs ys ^ 2 / (ccross xs xs * ccross ys ys)

section Unwrap

variable [FloorRing α]

/-- Round to nearest integer with ties to even: the rounding of `np.round`
(and of Python's built-in `round`). -/
def roundHE (x : α) : ℤ :=
  if x - ⌊x⌋ < 1 / 2 then ⌊x⌋
  else if 1 / 2 < x - ⌊x⌋ then ⌊x⌋ + 1
  else if Even ⌊x⌋ then ⌊x⌋ else ⌊x⌋ + 1

/-- Running sums of `xs` continuing from the accumulator `acc`. -/
def cumsumFrom (acc : α) : List α → List α
  | [] => []
  | x :: xs => (acc + x) :: cumsumFrom (acc + x) xs

/-- Numpy `cumsum`. -/
def cumsum (xs : List α) : List α := cumsumFrom 0 xs

/-- Shallow embedding of `unwrap_phase_custom` in
`thermal_analysis/file_parser.py`.  `np.diff` gives `phase[i+1] - phase[i]`;
the vectorised count `k = np.round(diff / period) * mask` multiplies the
half-to-even rounding by the boolean mask `|diff| > threshold`; the cumulative
sum of `-k * period` is added to every sample from index 1 on. -/
def unwrap_phase_custom (phase : List α) (period threshold : α) : List α :=
  let diff := List.zipWith (fun next cur => next - cur) phase.tail phase
  let k := diff.map fun d =>
    ((roundHE (d / period) : ℤ) : α) * (if threshold < |d| then 1 else 0)
  let correction := k.map fun ki => -ki * period
  let cumulative_correction := cumsum correction
  match phase with
  | [] => []
  | p0 :: rest => p0 :: List.zipWith (· + ·) rest cumulative_correction

/-- Statement-side description of the phase unwrap, written from the claim:
the difference `d i = phase (i+1) - phase i` gets a correction count
`k i = round (d i / P)` exactly when `|d i| > T` and `k i = 0` otherwise, and
sample `j` receives the running sum of `-(k i) * P` over `i < j` (sample 0 is
never corrected). -/
def unwrapSpecC2 (phase : List α) (P T : α) : List α :=
  (List.range phase.length).map fun j =>
    phase.getD j 0 +
      ((List.range j).map fun i =>
        let d := phase.getD (i + 1) 0 - phase.getD i 0
        if T < |d| then -((roundHE (d / P) : ℤ) : α) * P else 0).sum

end Unwrap

/-- Shallow embedding of `calculate_alpha_from_slope` in
`thermal_analysis/physics.py`: `alpha = pi * L^2 / slope^2` with
`L = thickness_um * 1e-6`.  `np.pi` is passed as the `pi` argument so that the
definition stays executable; claims instantiate it with `Real.pi`. -/
def calculate_alpha_from_slope (pi slope thickness_um : α) : α :=
  let L_meter := thickness_um * (1 / 1000000)
  pi * L_meter ^ 2 / slope ^ 2

/-- Shallow embedding of `calculate_kd` in `thermal_analysis/physics.py`:
zeros of the input shape when `alpha <= 0` (the `np.isnan` disjunct of the
source guard has no counterpart in an ordered field), otherwise
`L * sqrt(pi * f / alpha)` elementwise.  `np.sqrt` and `np.pi` are passed as
arguments; claims instantiate them with `Real.sqrt` and `Real.pi`. -/
def calculate_kd (sqrt : α → α) (pi : α) (freq_array : List α)
    (alpha thickness_um : α) : List α :=
  if alpha ≤ 0 then List.replicate freq_array.length 0
  else
    let L_meter := thickness_um * (1 / 1000000)
    freq_array.map fun f => L_meter * sqrt (pi * f / alpha)

/-- Parsed measurement file (`RawData` in `thermal_analysis/datamodels.py`):
the data frame is a column-name-indexed table, the metadata a key/value map. -/
structure RawData (α : Type) where
  df : List (String × List α)
  metadata : List (String × α)
  filepath : String
deriving DecidableEq

/-- Fields of the configuration object (`AppConfig` in `config.py`) read by the
analyzer and the interactive plotter. -/
structure Config (α : Type) where
  COL_FREQ_SQRT : String
  COL_AMP : String
  COL_PHASE : String
  DEFAULT_THICKNESS_UM : α
  KEY_X_POS : String
  KEY_Y_POS : String
  KEY_Z_POS : String
deriving DecidableEq

/-- Persisted outcome of one analysis run (`AnalysisResult` in
`thermal_analysis/datamodels.py`); `Option` fields default to `none` exactly
like the `None` defaults of the Python dataclass. -/
structure AnalysisResult (α : Type) where
  filename : String
  samplename : Option String := none
  thickness_um : Option α := none
  alpha_phase : Option α := none
  r2_phase : Option α := none
  slope_phase : Option α := none
  intercept_phase : Option α := none
  alpha_amp : Option α := none
  r2_amp : Option α := none
  slope_amp : Option α := none
  intercept_amp : Option α := none
  alpha_ratio : Option α := none
  x_position : Option α := none
  y_position : Option α := none
  z_position : Option α := none
  used_indices : List Nat := []
  freq_range_min : α
  freq_range_max : α
  kd_min : Option α := none
  kd_max : Option α := none
deriving DecidableEq

/-- Column access `raw.df[name].values`; `none` models the `KeyError` raised on
a missing column. -/
def dfCol (raw : RawData α) (name : String) : Option (List α) :=
  raw.df.lookup name

/-- Numpy `np.min` of an array (0 on the empty list; every use below is behind
the source's own nonemptiness guards). -/
def npMin : List α → α
  | [] => 0
  | x :: xs => xs.foldl min x

/-- Numpy `np.max` of an array (0 on the empty list). -/
def npMax : List α → α
  | [] => 0
  | x :: xs => xs.foldl max x

/-- Shallow embedding of `run_analysis` in `thermal_analysis/analyzer.py`.
`none` models an uncaught exception: a missing column (`KeyError`), an
out-of-range index (`IndexError`), or scipy's constant-x `ValueError`.
`pi`, `sqrt`, `log` stand for `np.pi`, `np.sqrt`, `np.log`. -/
def run_analysis (pi : α) (sqrt log : α → α) (raw : RawData α)
    (config : Config α) (used_indices : Option (List Nat)) :
    Option (AnalysisResult α) := do
  let x_data ← dfCol raw config.COL_FREQ_SQRT
  let amp_data ← dfCol raw config.COL_AMP
  let phase_data ← dfCol raw config.COL_PHASE
  let y_amp_log := amp_data.map log
  let thickness := (raw.metadata.lookup "試料厚").getD config.DEFAULT_THICKNESS_UM
  let used := used_indices.getD (List.range x_data.length)
  if used.length < 2 then
    pure { filename := raw.filepath
           thickness_um := some thickness
           used_indices := []
           freq_range_min := 0, freq_range_max := 0
           kd_min := some 0, kd_max := some 0 }
  else do
    let x_sub ← npIndex x_data used
    let fit_phase ← linear_regression_subset x_data phase_data (some used)
    let fit_amp ← linear_regression_subset x_data y_amp_log (some used)
    let alpha_phase := calculate_alpha_from_slope pi fit_phase.slope thickness
    let alpha_amp := calculate_alpha_from_slope pi fit_amp.slope thickness
    let freq_sub := x_sub.map fun v => v ^ 2
    let kd_values := calculate_kd sqrt pi freq_sub alpha_phase thickness
    let kd_mn := if 0 < kd_values.length then npMin kd_values else 0
    let kd_mx := if 0 < kd_values.length then npMax kd_values else 0
    let alpha_ratio := if 0 < alpha_amp ∧ 0 < alpha_phase
      then min alpha_amp alpha_phase / max alpha_amp alpha_phase else (0 : α)
    pure { filename := raw.filepath
           thickness_um := some thickness
           alpha_amp := some alpha_amp
           r2_amp := some fit_amp.r2
           slope_amp := some fit_amp.slope
           intercept_amp := some fit_amp.intercept
           alpha_phase := some alpha_phase
           r2_phase := some fit_phase.r2
           slope_phase := some fit_phase.slope
           intercept_phase := some fit_phase.intercept
           alpha_ratio := some alpha_ratio
           x_position := raw.metadata.lookup config.KEY_X_POS
           y_position := raw.metadata.lookup config.KEY_Y_POS
           z_position := raw.metadata.lookup config.KEY_Z_POS
           used_indices := used
           freq_range_min := npMin x_sub
           freq_range_max := npMax x_sub
           kd_min := some kd_mn
           kd_max := some kd_mx }

/-- Positions of the `true` entries of a boolean mask in increasing order,
starting at offset `i`. -/
def maskIndicesFrom : Nat → List Bool → List Nat
  | _, [] => []
  | i, b :: bs =>
    if b then i :: maskIndicesFrom (i + 1) bs else maskIndicesFrom (i + 1) bs

/-- Numpy `np.where(mask)[0]`. -/
def maskIndices (m : List Bool) : List Nat := maskIndicesFrom 0 m

/-- Numpy boolean-mask selection `xs[m]`. -/
def maskSelect (xs : List α) (m : List Bool) : List α :=
  (xs.zip m).filterMap fun p => if p.2 then some p.1 else none

/-- Shallow embedding of `TWAInteractivePlotter.update_plot_and_calc` in
`thermal_analysis/interactive_ui.py`, as a pure transition on the state the
plotter holds: the arrays its constructor read from `raw` and `config`, the two
masks, and the previously stored `self.result`.  The returned value is the new
`self.result` (unchanged when fewer than 2 points are active); the outer
`Option` models an uncaught exception.  Redraw-only side effects (scatter
offsets, fit line, title) carry no analysis state and are not modelled. -/
def update_plot_and_calc (pi : α) (sqrt log : α → α) (raw : RawData α)
    (config : Config α) (range_mask manual_mask : List Bool)
    (prev : Option (AnalysisResult α)) : Option (Option (AnalysisResult α)) := do
  let x_data ← dfCol raw config.COL_FREQ_SQRT
  let amp_data ← dfCol raw config.COL_AMP
  let phase_data ← dfCol raw config.COL_PHASE
  let y_amp_log := amp_data.map log
  let thickness := (raw.metadata.lookup "試料厚").getD config.DEFAULT_THICKNESS_UM
  let active_mask := List.zipWith (fun a b => a && b) range_mask manual_mask
  let active_indices := maskIndices active_mask
  if active_indices.length < 2 then
    pure prev
  else do
    let fit_phase ← linear_regression_subset x_data phase_data (some active_indices)
    let alpha_phase := calculate_alpha_from_slope pi fit_phase.slope thickness
    let fit_amp ← linear_regression_subset x_data y_amp_log (some active_indices)
    let alpha_amp := calculate_alpha_from_slope pi fit_amp.slope thickness
    let freq_hz ← npIndex x_data active_indices
    let kd_values := calculate_kd sqrt pi (freq_hz.map fun v => v ^ 2) alpha_phase thickness
    let alpha_ratio := if 0 < alpha_amp ∧ 0 < alpha_phase
      then min alpha_amp alpha_phase / max alpha_amp alpha_phase else (0 : α)
    pure (some
      { filename := raw.filepath
        thickness_um := some thickness
        alpha_amp := some alpha_amp
        r2_amp := some fit_amp.r2
        slope_amp := some fit_amp.slope
        intercept_amp := some fit_amp.intercept
        alpha_phase := some alpha_phase
        r2_phase := some fit_phase.r2
        slope_phase := some fit_phase.slope
        intercept_phase := some fit_phase.intercept
        alpha_ratio := some alpha_ratio
        used_indices := active_indices
        freq_range_min := npMin (maskSelect x_data active_mask)
        freq_range_max := npMax (maskSelect x_data active_mask)
        kd_min := some (npMin kd_values)
        kd_max := some (npMax kd_values) })

/-- Statement-side: an analysis record with the three spatial metadata fields
cleared (the interactive plotter never fills them). -/
def stripPositions (r : AnalysisResult α) : AnalysisResult α :=
  { r with x_position := none, y_position := none, z_position := none }

lemma npIndex_eq_selectD (xs : List α) (idx : List Nat)
    (h : ∀ i ∈ idx, i < xs.length) : npIndex xs idx = some (selectD xs idx) := by
  induction idx with
  | nil => rfl
  | cons i is ih =>
    have hi : i < xs.length := h i (List.mem_cons_self i is)
    have hrest : ∀ j ∈ is, j < xs.length := fun j hj => h j (List.mem_cons_of_mem _ hj)
    simp [npIndex, selectD, List.getElem?_eq_getElem hi, ih hrest,
      List.getD_eq_getElem xs 0 hi]

lemma selectD_length (xs : List α) (idx : List Nat) :
    (selectD xs idx).length = idx.length := by
  simp [selectD]

lemma selectD_range_self (xs : List α) : selectD xs (List.range xs.length) = xs := by
  apply List.ext_getElem
  · simp [selectD]
  · intro n h1 h2
    simp only [selectD, List.getElem_map, List.getElem_range]
    exact List.getD_eq_getElem xs 0 h2

lemma npIndex_range_self (xs : List α) :
    npIndex xs (List.range xs.length) = some xs := by
  rw [npIndex_eq_selectD xs _ (fun i hi => List.mem_range.mp hi), selectD_range_self]

/-- C4: a selection of fewer than 2 points (the empty index list, or any
in-range singleton) makes `linear_regression_subset` return the invalid
`FitResult` with zero slope, intercept and r² instead of raising, and an
absent (`none`) index argument means all positions of `x` and `y` are used. -/
theorem claim_C4 (x y : List α) (i : Nat) (hx : i < x.length) (hy : i < y.length) :
    linear_regression_subset x y (some []) = some ⟨0, 0, 0, false⟩ ∧
    linear_regression_subset x y (some [i]) = some ⟨0, 0, 0, false⟩ ∧
    (x.length = y.length →
      linear_regression_subset x y none =
        linear_regression_subset x y (some (List.range x.length))) := by
  refine ⟨by simp [linear_regression_subset, extract_subset], ?_, ?_⟩
  · simp [linear_regression_subset, extract_subset, npIndex,
      List.getElem?_eq_getElem hx, List.getElem?_eq_getElem hy]
  · intro hlen
    rcases Nat.eq_zero_or_pos x.length with h0 | hpos
    · rcases List.length_eq_zero.mp h0 with rfl
      simp [linear_regression_subset, extract_subset]
    · have hx' : npIndex x (List.range x.length) = some x := npIndex_range_self x
      have hy' : npIndex y (List.range x.length) = some y := by
        rw [hlen]; exact npIndex_range_self y
      simp [linear_regression_subset, extract_subset, hx', hy',
        List.length_range, List.length_pos.mp hpos]

/-- C5: `calculate_alpha_from_slope` returns `pi * (thickness_um * 1e-6)^2 / slope^2`
for every nonzero slope, and on the fixture `slope = -2.0`,
`thickness_um = 26.5` it equals `pi * (26.5e-6)^2 / 4` exactly.  (The
slope-zero clause of the claim concerns IEEE float behaviour — `np.float64`
division by zero yields a non-finite value without raising — which has no
counterpart in the exact real embedding; the embedded function is total.) -/
theorem claim_C5 :
    (∀ slope thickness_um : ℝ, slope ≠ 0 →
        calculate_alpha_from_slope Real.pi slope thickness_um =
          Real.pi * (thickness_um * 1e-6) ^ 2 / slope ^ 2) ∧
    calculate_alpha_from_slope Real.pi (-2) 26.5 = Real.pi * (26.5e-6 : ℝ) ^ 2 / 4 := by
  constructor
  · intro slope t _
    norm_num [calculate_alpha_from_slope]
  · norm_num [calculate_alpha_from_slope]

/-- Witness for C5 at `slope = -2`, `thickness_um = 26.5`. -/
theorem claim_C5_witness :
    ((-2 : ℝ) ≠ 0) ∧
    calculate_alpha_from_slope Real.pi (-2) 26.5 =
      Real.pi * ((26.5 : ℝ) * 1e-6) ^ 2 / (-2 : ℝ) ^ 2 :=
  ⟨by norm_num, claim_C5.1 (-2) 26.5 (by norm_num)⟩

/-- C6: `calculate_kd` returns an all-zero array of the input's shape whenever
`alpha ≤ 0` (in particular on the fixture `alpha = -1`, `thickness_um = 10`),
and `thickness_um * 1e-6 * sqrt(pi * f / alpha)` elementwise when `0 < alpha`. -/
theorem claim_C6 :
    (∀ (freqs : List ℝ) (alpha thickness_um : ℝ), alpha ≤ 0 →
        calculate_kd Real.sqrt Real.pi freqs alpha thickness_um =
          List.replicate freqs.length 0) ∧
    (∀ (freqs : List ℝ) (alpha thickness_um : ℝ), 0 < alpha →
        calculate_kd Real.sqrt Real.pi freqs alpha thickness_um =
          freqs.map fun f => thickness_um * 1e-6 * Real.sqrt (Real.pi * f / alpha)) ∧
    (∀ freqs : List ℝ,
        calculate_kd Real.sqrt Real.pi freqs (-1) 10 =
          List.replicate freqs.length 0) := by
  refine ⟨fun freqs alpha t h => by simp [calculate_kd, h], fun freqs alpha t h => ?_,
    fun freqs => by norm_num [calculate_kd]⟩
  rw [calculate_kd, if_neg (not_le.mpr h)]
  norm_num

/-- Witness for C6 at `freqs = [4]`, `alpha = 1`, `thickness_um = 10`. -/
theorem claim_C6_witness :
    ((0 : ℝ) < 1) ∧
    calculate_kd Real.sqrt Real.pi [4] 1 10 =
      [(4 : ℝ)].map fun f => (10 : ℝ) * 1e-6 * Real.sqrt (Real.pi * f / 1) :=
  ⟨one_pos, claim_C6.2.1 [4] 1 10 one_pos⟩

lemma cumsumFrom_length (acc : α) (xs : List α) :
    (cumsumFrom acc xs).length = xs.length := by
  induction xs generalizing acc with
  | nil => rfl
  | cons x xs ih => simp [cumsumFrom, ih]

lemma cumsumFrom_getElem (xs : List α) : ∀ (acc : α) (j : Nat)
    (h2 : j < (cumsumFrom acc xs).length),
    (cumsumFrom acc xs)[j] = acc + (xs.take (j + 1)).sum := by
  induction xs with
  | nil => intro acc j h2; simp [cumsumFrom] at h2
  | cons x xs ih =>
    intro acc j h2
    cases j with
    | zero => simp [cumsumFrom]
    | succ j =>
      have hj : j < (cumsumFrom (acc + x) xs).length := by
        simpa [cumsumFrom] using h2
      simp only [cumsumFrom, List.getElem_cons_succ, List.take_succ_cons]
      rw [ih (acc + x) j hj]
      simp only [List.sum_cons]
      ring

lemma take_sum_eq_range_sum (l : List α) (g : Nat → α)
    (hpt : ∀ m, (hm : m < l.length) → l[m] = g m) :
    ∀ m, m ≤ l.length → (l.take m).sum = ((List.range m).map g).sum := by
  intro m
  induction m with
  | zero => simp
  | succ m ih =>
    intro hm
    rw [List.sum_take_succ l m (by omega), List.range_succ, List.map_append,
      List.sum_append, ih (by omega)]
    simp [hpt m (by omega)]

lemma unwrap_phase_custom_eq_spec [FloorRing α] (phase : List α) (P T : α) :
    unwrap_phase_custom phase P T = unwrapSpecC2 phase P T := by
  cases phase with
  | nil => simp [unwrap_phase_custom, unwrapSpecC2]
  | cons p0 rest =>
    simp only [unwrap_phase_custom, unwrapSpecC2, List.tail_cons, List.map_map, cumsum]
    apply List.ext_getElem
    · simp [cumsumFrom_length]
    · intro n h1 h2
      simp only [List.length_cons, List.length_map, List.length_range] at h2
      cases n with
      | zero =>
        simp [List.getD_cons_zero]
      | succ n =>
        have hn : n < rest.length := by omega
        have hlen2 : (List.zipWith (fun next cur => next - cur) rest
            (p0 :: rest)).length = rest.length := by simp
        have hpt : ∀ m, (hm : m < (List.map
              ((fun ki => -ki * P) ∘ fun d =>
                ((roundHE (d / P) : ℤ) : α) * if T < |d| then 1 else 0)
              (List.zipWith (fun next cur => next - cur) rest (p0 :: rest))).length) →
            (List.map ((fun ki => -ki * P) ∘ fun d =>
                ((roundHE (d / P) : ℤ) : α) * if T < |d| then 1 else 0)
              (List.zipWith (fun next cur => next - cur) rest (p0 :: rest)))[m] =
              (if T < |(p0 :: rest).getD (m + 1) 0 - (p0 :: rest).getD m 0| then
                -((roundHE (((p0 :: rest).getD (m + 1) 0 - (p0 :: rest).getD m 0) / P) : ℤ) : α) * P
              else 0) := by
          intro m hm
          have hm' : m < rest.length := by simpa using hm
          have hm2 : m < (p0 :: rest).length := by simp; omega
          rw [List.getElem_map, List.getElem_zipWith]
          rw [List.getD_cons_succ, List.getD_eq_getElem rest 0 hm',
            List.getD_eq_getElem (p0 :: rest) 0 hm2]
          by_cases hc : T < |rest[m] - (p0 :: rest)[m]|
          · rw [if_pos hc, Function.comp_apply, if_pos hc]
            ring
          · rw [if_neg hc, Function.comp_apply, if_neg hc]
            ring
        rw [List.getElem_cons_succ, List.getElem_zipWith]
        rw [cumsumFrom_getElem _ 0 n (by rw [cumsumFrom_length]; simpa using hn)]
        rw [take_sum_eq_range_sum _ _ hpt (n + 1) (by simpa using hn)]
        rw [List.getElem_map, List.getElem_range]
        rw [List.getD_cons_succ, List.getD_eq_getElem rest 0 hn]
        ring

/-- C9: a phase sequence in which no adjacent difference exceeds the threshold
in absolute value is returned unchanged by the phase unwrap. -/
theorem claim_C9 [FloorRing α] (phase : List α) (P T : α)
    (h : ∀ i, i + 1 < phase.length →
      |phase.getD (i + 1) 0 - phase.getD i 0| ≤ T) :
    unwrap_phase_custom phase P T = phase := by
  rw [unwrap_phase_custom_eq_spec]
  apply List.ext_getElem (by simp [unwrapSpecC2])
  intro j h1 h2
  simp only [unwrapSpecC2, List.getElem_map, List.getElem_range]
  have hz : ((List.range j).map fun i =>
      if T < |phase.getD (i + 1) 0 - phase.getD i 0| then
        -((roundHE ((phase.getD (i + 1) 0 - phase.getD i 0) / P) : ℤ) : α) * P
      else 0).sum = 0 := by
    apply List.sum_eq_zero
    intro x hx
    rcases List.mem_map.mp hx with ⟨i, hi, rfl⟩
    have hij : i < j := List.mem_range.mp hi
    have hib : i + 1 < phase.length := by omega
    rw [if_neg (not_lt.mpr (h i hib))]
  rw [hz, add_zero, List.getD_eq_getElem phase 0 h2]

/-- Witness for C9 on the already-continuous fixture `[1, 2, 3]` with
threshold 3. -/
theorem claim_C9_witness :
    (∀ i, i + 1 < ([1, 2, 3] : List ℚ).length →
      |([1, 2, 3] : List ℚ).getD (i + 1) 0 - ([1, 2, 3] : List ℚ).getD i 0| ≤ 3) ∧
    unwrap_phase_custom ([1, 2, 3] : List ℚ) 7 3 = [1, 2, 3] := by
  have h : ∀ i, i + 1 < ([1, 2, 3] : List ℚ).length →
      |([1, 2, 3] : List ℚ).getD (i + 1) 0 - ([1, 2, 3] : List ℚ).getD i 0| ≤ 3 := by
    intro i hi
    simp only [List.length_cons, List.length_nil] at hi
    have hi2 : i = 0 ∨ i = 1 := by omega
    rcases hi2 with rfl | rfl <;> norm_num [List.getD]
  exact ⟨h, claim_C9 _ 7 3 h⟩

lemma roundHE_32_pi : roundHE ((3.2 : ℝ) / Real.pi) = 1 := by
  have hpi : (0 : ℝ) < Real.pi := Real.pi_pos
  have hub : Real.pi < 3.15 := Real.pi_lt_d2
  have hlb : (3.14 : ℝ) < Real.pi := Real.pi_gt_d2
  have h1 : (1 : ℝ) ≤ 3.2 / Real.pi := by rw [le_div_iff hpi]; nlinarith
  have h2 : (3.2 : ℝ) / Real.pi < 3 / 2 := by rw [div_lt_iff hpi]; nlinarith
  have hfl : ⌊(3.2 : ℝ) / Real.pi⌋ = 1 := by
    rw [Int.floor_eq_iff]
    constructor
    · push_cast
      exact h1
    · push_cast
      linarith
  rw [roundHE, hfl]
  rw [if_pos (by push_cast; linarith)]

lemma roundHE_neg32_pi : roundHE ((-3.2 : ℝ) / Real.pi) = -1 := by
  have hpi : (0 : ℝ) < Real.pi := Real.pi_pos
  have hub : Real.pi < 3.15 := Real.pi_lt_d2
  have hlb : (3.14 : ℝ) < Real.pi := Real.pi_gt_d2
  have h1 : (3.2 : ℝ) / Real.pi < 3 / 2 := by rw [div_lt_iff hpi]; nlinarith
  have h2 : (1 : ℝ) < 3.2 / Real.pi := by rw [lt_div_iff hpi]; nlinarith
  have hneg : (-3.2 : ℝ) / Real.pi = -(3.2 / Real.pi) := by ring
  have hfl : ⌊(-3.2 : ℝ) / Real.pi⌋ = -2 := by
    rw [Int.floor_eq_iff]
    constructor
    · push_cast
      rw [hneg]
      linarith
    · push_cast
      rw [hneg]
      linarith
  rw [roundHE, hfl]
  rw [if_neg (by push_cast; rw [hneg]; linarith)]
  rw [if_pos (by push_cast; rw [hneg]; linarith)]
  norm_num

lemma roundHE_neg33_pi : roundHE ((-3.3 : ℝ) / Real.pi) = -1 := by
  have hpi : (0 : ℝ) < Real.pi := Real.pi_pos
  have hub : Real.pi < 3.15 := Real.pi_lt_d2
  have hlb : (3.14 : ℝ) < Real.pi := Real.pi_gt_d2
  have h1 : (3.3 : ℝ) / Real.pi < 3 / 2 := by rw [div_lt_iff hpi]; nlinarith
  have h2 : (1 : ℝ) < 3.3 / Real.pi := by rw [lt_div_iff hpi]; nlinarith
  have hneg : (-3.3 : ℝ) / Real.pi = -(3.3 / Real.pi) := by ring
  have hfl : ⌊(-3.3 : ℝ) / Real.pi⌋ = -2 := by
    rw [Int.floor_eq_iff]
    constructor
    · push_cast
      rw [hneg]
      linarith
    · push_cast
      rw [hneg]
      linarith
  rw [roundHE, hfl]
  rw [if_neg (by push_cast; rw [hneg]; linarith)]
  rw [if_pos (by push_cast; rw [hneg]; linarith)]
  norm_num

/-- C2: the phase unwrap equals its claim-side description (differences
`d i = phase (i+1) - phase i`, count `k = round(d/P)` exactly when `|d| > T`
and 0 otherwise, running sum of `-k * P` added from index 1 on, sample 0
untouched; `round` is the half-to-even rounding of `np.round`), and on the
literal fixture `[0.1, 0.2, 3.4, 3.5, 0.3, -3.0]` with period `π` and
threshold 3 it yields `[0.1, 0.2, 3.4 - π, 3.5 - π, 0.3, -3.0 + π]`: no
correction for the first difference, a correction `-π` introduced at index 2
for the `0.2 → 3.4` jump and accumulated onward (cancelled by the `3.5 → 0.3`
jump and flipped to `+π` by the `0.3 → -3.0` jump). -/
theorem claim_C2 :
    (∀ (phase : List ℝ) (P T : ℝ),
        unwrap_phase_custom phase P T = unwrapSpecC2 phase P T) ∧
    unwrap_phase_custom ([0.1, 0.2, 3.4, 3.5, 0.3, -3.0] : List ℝ) Real.pi 3 =
      [0.1, 0.2, 3.4 - Real.pi, 3.5 - Real.pi, 0.3, -3.0 + Real.pi] := by
  refine ⟨fun phase P T => unwrap_phase_custom_eq_spec phase P T, ?_⟩
  have d1 : (0.2 : ℝ) - 0.1 = 0.1 := by norm_num
  have d2 : (3.4 : ℝ) - 0.2 = 3.2 := by norm_num
  have d3 : (3.5 : ℝ) - 3.4 = 0.1 := by norm_num
  have d4 : (0.3 : ℝ) - 3.5 = -3.2 := by norm_num
  have d5 : (-3.0 : ℝ) - 0.3 = -3.3 := by norm_num
  have habs1 : ¬ ((3 : ℝ) < |(0.1 : ℝ)|) := by
    rw [abs_of_pos (by norm_num)]; norm_num
  have habs2 : (3 : ℝ) < |(3.2 : ℝ)| := by
    rw [abs_of_pos (by norm_num)]; norm_num
  have habs4 : (3 : ℝ) < |(-3.2 : ℝ)| := by
    rw [abs_of_neg (by norm_num)]; norm_num
  have habs5 : (3 : ℝ) < |(-3.3 : ℝ)| := by
    rw [abs_of_neg (by norm_num)]; norm_num
  simp only [unwrap_phase_custom, List.tail_cons, List.zipWith_cons_cons,
    List.zipWith_nil_right, List.map_cons, List.map_nil, cumsum, cumsumFrom,
    d1, d2, d3, d4, d5]
  rw [roundHE_32_pi, roundHE_neg32_pi, roundHE_neg33_pi]
  simp only [if_neg habs1, if_pos habs2, if_pos habs4, if_pos habs5,
    mul_zero, mul_one, neg_zero, zero_mul, List.cons.injEq]
  push_cast
  norm_num
  constructor <;> ring

lemma list_sum_eq_zero_of_nonneg (l : List α) (h : ∀ x ∈ l, 0 ≤ x)
    (hs : l.sum = 0) : ∀ x ∈ l, x = 0 := by
  induction l with
  | nil => simp
  | cons a l ih =>
    have ha : 0 ≤ a := h a (by simp)
    have hl : 0 ≤ l.sum := List.sum_nonneg fun x hx => h x (List.mem_cons_of_mem _ hx)
    have hsum : a + l.sum = 0 := by simpa using hs
    have ha0 : a = 0 := le_antisymm (by linarith) ha
    intro x hx
    rcases List.mem_cons.mp hx with rfl | hx
    · exact ha0
    · exact ih (fun y hy => h y (List.mem_cons_of_mem _ hy)) (by linarith) x hx

lemma zip_centered_expand (c d : α) : ∀ (xs ys : List α), xs.length = ys.length →
    (List.zipWith (fun a b => (a - c) * (b - d)) xs ys).sum
      = (List.zipWith (fun a b => a * b) xs ys).sum - d * xs.sum - c * ys.sum
        + (xs.length : α) * (c * d) := by
  intro xs
  induction xs with
  | nil =>
    intro ys h
    cases ys with
    | nil => simp
    | cons b ys => simp at h
  | cons a xs ih =>
    intro ys h
    cases ys with
    | nil => simp at h
    | cons b ys =>
      have h2 : xs.length = ys.length := by simpa using h
      simp only [List.zipWith_cons_cons, List.sum_cons, ih ys h2, List.length_cons]
      push_cast
      ring

lemma sumSqResid_expand (a b : α) : ∀ (xs ys : List α), xs.length = ys.length →
    sumSqResid xs ys a b
      = (List.zipWith (fun u v => u * v) ys ys).sum
        - 2 * a * (List.zipWith (fun u v => u * v) xs ys).sum
        - 2 * b * ys.sum
        + a ^ 2 * (List.zipWith (fun u v => u * v) xs xs).sum
        + 2 * (a * b) * xs.sum
        + (xs.length : α) * b ^ 2 := by
  intro xs
  induction xs with
  | nil =>
    intro ys h
    cases ys with
    | nil => simp [sumSqResid]
    | cons v ys => simp at h
  | cons u xs ih =>
    intro ys h
    cases ys with
    | nil => simp at h
    | cons v ys =>
      have h2 : xs.length = ys.length := by simpa using h
      have ihx := ih ys h2
      simp only [sumSqResid, List.zipWith_cons_cons, List.sum_cons,
        List.length_cons] at ihx ⊢
      rw [ihx]
      push_cast
      ring

lemma covB_eq_ccross_div (xs ys : List α) :
    covB xs ys = ccross xs ys / xs.length := rfl

lemma ccross_eq_raw (xs ys : List α) (h : xs.length = ys.length)
    (hn : (xs.length : α) ≠ 0) :
    ccross xs ys = (List.zipWith (fun u v => u * v) xs ys).sum
      - xs.sum * ys.sum / xs.length := by
  rw [ccross, zip_centered_expand _ _ xs ys h, mean, mean, ← h]
  field_simp
  ring

lemma ccross_self_nonneg (xs : List α) : 0 ≤ ccross xs xs := by
  rw [ccross, List.zipWith_same]
  apply List.sum_nonneg
  intro x hx
  rcases List.mem_map.mp hx with ⟨a, _, rfl⟩
  exact mul_self_nonneg _

lemma ccross_self_eq_zero_imp (xs : List α) (h : ccross xs xs = 0) :
    ∀ u ∈ xs, u = mean xs := by
  rw [ccross, List.zipWith_same] at h
  intro u hu
  have hz := list_sum_eq_zero_of_nonneg _
    (fun x hx => by
      rcases List.mem_map.mp hx with ⟨a, _, rfl⟩
      exact mul_self_nonneg _) h
    ((u - mean xs) * (u - mean xs)) (List.mem_map_of_mem _ hu)
  have := mul_self_eq_zero.mp hz
  linarith

lemma ccross_self_ne_zero (xs : List α)
    (hne : ¬ ∀ u ∈ xs, ∀ v ∈ xs, u = v) : ccross xs xs ≠ 0 := by
  intro h0
  apply hne
  intro u hu v hv
  rw [ccross_self_eq_zero_imp xs h0 u hu, ccross_self_eq_zero_imp xs h0 v hv]

lemma zip_sum_as_finset (f : α → α → α) : ∀ (xs ys : List α), xs.length = ys.length →
    (List.zipWith f xs ys).sum
      = ∑ i ∈ Finset.range xs.length, f (xs.getD i 0) (ys.getD i 0) := by
  intro xs
  induction xs with
  | nil =>
    intro ys h
    simp
  | cons a xs ih =>
    intro ys h
    cases ys with
    | nil => simp at h
    | cons b ys =>
      have h2 : xs.length = ys.length := by simpa using h
      simp only [List.zipWith_cons_cons, List.sum_cons, List.length_cons]
      rw [Finset.sum_range_succ']
      simp only [List.getD_cons_succ, List.getD_cons_zero]
      rw [ih ys h2]
      ring

lemma ccross_sq_le (xs ys : List α) (h : xs.length = ys.length) :
    ccross xs ys ^ 2 ≤ ccross xs xs * ccross ys ys := by
  have hb := Finset.sum_mul_sq_le_sq_mul_sq (Finset.range xs.length)
    (fun i => xs.getD i 0 - mean xs) (fun i => ys.getD i 0 - mean ys)
  rw [ccross, ccross, ccross, zip_sum_as_finset _ xs ys h,
    zip_sum_as_finset _ xs xs rfl, zip_sum_as_finset _ ys ys rfl, ← h]
  calc (∑ i ∈ Finset.range xs.length,
          (xs.getD i 0 - mean xs) * (ys.getD i 0 - mean ys)) ^ 2
      ≤ (∑ i ∈ Finset.range xs.length, (xs.getD i 0 - mean xs) ^ 2) *
          ∑ i ∈ Finset.range xs.length, (ys.getD i 0 - mean ys) ^ 2 := hb
    _ = (∑ i ∈ Finset.range xs.length,
          (xs.getD i 0 - mean xs) * (xs.getD i 0 - mean xs)) *
          ∑ i ∈ Finset.range xs.length,
            (ys.getD i 0 - mean ys) * (ys.getD i 0 - mean ys) := by
        simp_rw [pow_two]

lemma resid_decomp_algebra (R S X Y n a b s : α) (hn : n ≠ 0) :
    (R - 2 * a * (s * S + X * Y / n) - 2 * b * Y + a ^ 2 * (S + X * X / n)
        + 2 * (a * b) * X + n * b ^ 2)
      - (R - 2 * s * (s * S + X * Y / n)
          - 2 * (Y / n - s * (X / n)) * Y + s ^ 2 * (S + X * X / n)
          + 2 * (s * (Y / n - s * (X / n))) * X + n * (Y / n - s * (X / n)) ^ 2)
      = S * (a - s) ^ 2 + n * (Y / n - a * (X / n) - b) ^ 2 := by
  field_simp
  ring

lemma sumSqResid_ols_min (xs ys : List α) (h : xs.length = ys.length)
    (hn : (0 : α) < xs.length) (hS : 0 < ccross xs xs) (a b : α) :
    sumSqResid xs ys (ccross xs ys / ccross xs xs)
        (mean ys - ccross xs ys / ccross xs xs * mean xs)
      ≤ sumSqResid xs ys a b := by
  have hn2 : ((xs.length : α)) ≠ 0 := ne_of_gt hn
  have hSne : ccross xs xs ≠ 0 := ne_of_gt hS
  have hP : ccross xs ys = ccross xs ys / ccross xs xs * ccross xs xs :=
    (div_mul_cancel₀ _ hSne).symm
  have e1 : (List.zipWith (fun u v => u * v) xs ys).sum
      = ccross xs ys / ccross xs xs * ccross xs xs
        + xs.sum * ys.sum / xs.length := by
    have hraw := ccross_eq_raw xs ys h hn2
    rw [← hP]
    linarith
  have e2 : (List.zipWith (fun u v => u * v) xs xs).sum
      = ccross xs xs + xs.sum * xs.sum / xs.length := by
    have hraw := ccross_eq_raw xs xs rfl hn2
    linarith
  have key := resid_decomp_algebra ((List.zipWith (fun u v => u * v) ys ys).sum)
    (ccross xs xs) xs.sum ys.sum (xs.length : α) a b
    (ccross xs ys / ccross xs xs) hn2
  have h1 : 0 ≤ ccross xs xs * (a - ccross xs ys / ccross xs xs) ^ 2 :=
    mul_nonneg hS.le (sq_nonneg _)
  have h2 : 0 ≤ (xs.length : α) *
      (ys.sum / xs.length - a * (xs.sum / xs.length) - b) ^ 2 :=
    mul_nonneg hn.le (sq_nonneg _)
  rw [sumSqResid_expand a b xs ys h, sumSqResid_expand _ _ xs ys h, e1, e2]
  simp only [mean]
  rw [← h]
  linarith

lemma linregress_not_guard (xs : List α)
    (hne : ¬ ∀ u ∈ xs, ∀ v ∈ xs, u = v) :
    ¬ (1 < xs.length ∧ xs.all (fun a => decide (a = xs.headD 0)) = true) := by
  rintro ⟨-, hall⟩
  apply hne
  intro u hu v hv
  have h1 : u = xs.headD 0 := of_decide_eq_true (List.all_eq_true.mp hall u hu)
  have h2 : v = xs.headD 0 := of_decide_eq_true (List.all_eq_true.mp hall v hv)
  rw [h1, h2]

lemma ccross_self_pos (xs : List α)
    (hne : ¬ ∀ u ∈ xs, ∀ v ∈ xs, u = v) : 0 < ccross xs xs :=
  lt_of_le_of_ne (ccross_self_nonneg xs) (Ne.symm (ccross_self_ne_zero xs hne))

lemma linregress_r2_eq_pearsonSq (xs ys : List α) (h : xs.length = ys.length)
    (hn : (0 : α) < xs.length) (hS : 0 < ccross xs xs) :
    (if covB xs xs = 0 ∨ covB ys ys = 0 then (0 : α)
      else min (covB xs ys ^ 2 / (covB xs xs * covB ys ys)) 1)
      = pearsonSq xs ys := by
  have hn2 : ((xs.length : α)) ≠ 0 := ne_of_gt hn
  have hny : ((ys.length : α)) ≠ 0 := by rw [← h]; exact hn2
  by_cases hyy : ccross ys ys = 0
  · rw [if_pos (Or.inr (by rw [covB_eq_ccross_div, hyy, zero_div]))]
    rw [pearsonSq, hyy, mul_zero, div_zero]
  · have hxx0 : covB xs xs ≠ 0 := by
      rw [covB_eq_ccross_div]
      exact div_ne_zero (ne_of_gt hS) hn2
    have hyy0 : covB ys ys ≠ 0 := by
      rw [covB_eq_ccross_div]
      exact div_ne_zero hyy hny
    rw [if_neg (by push_neg; exact ⟨hxx0, hyy0⟩)]
    have hq : covB xs ys ^ 2 / (covB xs xs * covB ys ys) = pearsonSq xs ys := by
      rw [covB_eq_ccross_div, covB_eq_ccross_div, covB_eq_ccross_div, pearsonSq, ← h]
      field_simp
      ring
    rw [hq, min_eq_left]
    rw [pearsonSq]
    have hyy2 : 0 < ccross ys ys :=
      lt_of_le_of_ne (ccross_self_nonneg ys) (Ne.symm hyy)
    rw [div_le_one (by positivity)]
    calc ccross xs ys ^ 2 ≤ ccross xs xs * ccross ys ys := ccross_sq_le xs ys h
      _ = ccross xs xs * ccross ys ys := rfl

lemma linear_regression_subset_spec (x y : List α) (idx : List Nat)
    (hlen : x.length = y.length) (hvalid : ∀ i ∈ idx, i < x.length)
    (hcard : 2 ≤ idx.length)
    (hne : ¬ ∀ u ∈ selectD x idx, ∀ v ∈ selectD x idx, u = v) :
    linear_regression_subset x y (some idx)
      = some ⟨ccross (selectD x idx) (selectD y idx)
            / ccross (selectD x idx) (selectD x idx),
          mean (selectD y idx)
            - ccross (selectD x idx) (selectD y idx)
              / ccross (selectD x idx) (selectD x idx) * mean (selectD x idx),
          pearsonSq (selectD x idx) (selectD y idx), true⟩ := by
  have hvy : ∀ i ∈ idx, i < y.length := fun i hi => hlen ▸ hvalid i hi
  have hxi := npIndex_eq_selectD x idx hvalid
  have hyi := npIndex_eq_selectD y idx hvy
  have hlx : (selectD x idx).length = idx.length := selectD_length x idx
  have hly : (selectD y idx).length = idx.length := selectD_length y idx
  have hidx0 : idx.length ≠ 0 := by omega
  have hnotlt : ¬ (selectD x idx).length < 2 := by omega
  have hS : 0 < ccross (selectD x idx) (selectD x idx) := ccross_self_pos _ hne
  have hn : (0 : α) < (selectD x idx).length := by
    rw [hlx]
    exact_mod_cast Nat.pos_of_ne_zero hidx0
  have hn2 : (((selectD x idx).length : α)) ≠ 0 := ne_of_gt hn
  rw [linear_regression_subset]
  simp only [extract_subset, if_neg hidx0, hxi, hyi, Option.bind_eq_bind,
    Option.pure_def, Option.some_bind]
  rw [if_neg hnotlt]
  rw [linregress, if_neg (linregress_not_guard _ hne)]
  have hslope : covB (selectD x idx) (selectD y idx)
      / covB (selectD x idx) (selectD x idx)
      = ccross (selectD x idx) (selectD y idx)
        / ccross (selectD x idx) (selectD x idx) := by
    rw [covB_eq_ccross_div, covB_eq_ccross_div]
    rw [div_div_div_cancel_right₀]
    exact hn2
  have hr2 := linregress_r2_eq_pearsonSq (selectD x idx) (selectD y idx)
    (by rw [hlx, hly]) hn hS
  simp only [Option.some_bind, hslope, hr2]

/-- C3 (amended): on every index subset of at least 2 in-range points whose
selected x values are not all identical, `fit_subset`
(`linear_regression_subset`) returns a valid `FitResult` whose slope and
intercept minimize the sum of squared vertical residuals over the selected
points and whose `r2` equals the square of the Pearson correlation coefficient
of the selected samples; in particular on `x = [0,1,2,3]`, `y = [1,3,5,7]`
with all indices it returns slope 2, intercept 1, r² 1.  (The claim as stated
omits the constant-x proviso: scipy raises `ValueError` there, see the
counterexample.) -/
theorem claim_C3_amended :
    (∀ (x y : List α) (idx : List Nat), x.length = y.length →
      (∀ i ∈ idx, i < x.length) → 2 ≤ idx.length →
      (¬ ∀ u ∈ selectD x idx, ∀ v ∈ selectD x idx, u = v) →
      ∃ fr : FitResult α, linear_regression_subset x y (some idx) = some fr ∧
        fr.is_valid = true ∧
        (∀ a b, sumSqResid (selectD x idx) (selectD y idx) fr.slope fr.intercept ≤
          sumSqResid (selectD x idx) (selectD y idx) a b) ∧
        fr.r2 = pearsonSq (selectD x idx) (selectD y idx)) ∧
    linear_regression_subset (α := α) [0, 1, 2, 3] [1, 3, 5, 7]
      (some [0, 1, 2, 3]) = some ⟨2, 1, 1, true⟩ := by
  constructor
  · intro x y idx hlen hvalid hcard hne
    refine ⟨_, linear_regression_subset_spec x y idx hlen hvalid hcard hne, rfl,
      ?_, rfl⟩
    intro a b
    have hlx : (selectD x idx).length = idx.length := selectD_length x idx
    have hly : (selectD y idx).length = idx.length := selectD_length y idx
    have hn : (0 : α) < (selectD x idx).length := by
      rw [hlx]
      exact_mod_cast Nat.lt_of_lt_of_le Nat.zero_lt_two hcard
    exact sumSqResid_ols_min _ _ (by rw [hlx, hly]) hn (ccross_self_pos _ hne) a b
  · norm_num [linear_regression_subset, linregress, extract_subset, npIndex,
      covB, mean]
    simp

/-- Counterexample to C3 as stated: on `x = [1, 1]`, `y = [0, 1]` with the
2-point subset `[0, 1]` the selected x values are identical, and
`linear_regression_subset` raises scipy's constant-x `ValueError` (embedded
as `none`) instead of returning the claimed least-squares `FitResult`. -/
theorem claim_C3_counterexample :
    linear_regression_subset (α := ℚ) [1, 1] [0, 1] (some [0, 1]) = none := by
  norm_num [linear_regression_subset, linregress, extract_subset, npIndex]

/-- Witness for C3 (amended) at `x = [0, 1, 2, 3]`, `y = [1, 3, 5, 7]`,
`idx = [0, 1]`. -/
theorem claim_C3_witness :
    ∃ fr : FitResult ℚ,
      linear_regression_subset ([0, 1, 2, 3] : List ℚ) [1, 3, 5, 7]
        (some [0, 1]) = some fr ∧
      fr.is_valid = true ∧
      (∀ a b, sumSqResid (selectD ([0, 1, 2, 3] : List ℚ) [0, 1])
          (selectD ([1, 3, 5, 7] : List ℚ) [0, 1]) fr.slope fr.intercept ≤
        sumSqResid (selectD ([0, 1, 2, 3] : List ℚ) [0, 1])
          (selectD ([1, 3, 5, 7] : List ℚ) [0, 1]) a b) ∧
      fr.r2 = pearsonSq (selectD ([0, 1, 2, 3] : List ℚ) [0, 1])
        (selectD ([1, 3, 5, 7] : List ℚ) [0, 1]) :=
  claim_C3_amended.1 [0, 1, 2, 3] [1, 3, 5, 7] [0, 1] (by norm_num)
    (by intro i hi; simp only [List.mem_cons, List.not_mem_nil, or_false] at hi
        rcases hi with rfl | rfl <;> norm_num)
    (by norm_num)
    (by
      intro hall
      have h0 : (0 : ℚ) ∈ selectD ([0, 1, 2, 3] : List ℚ) [0, 1] := by
        norm_num [selectD]
      have h1 : (1 : ℚ) ∈ selectD ([0, 1, 2, 3] : List ℚ) [0, 1] := by
        norm_num [selectD]
      have := hall 0 h0 1 h1
      norm_num at this)

/-- Witness for C4 at `x = [1, 2, 3]`, `y = [4, 5, 6]`, `i = 1`. -/
theorem claim_C4_witness :
    ((1 : Nat) < ([1, 2, 3] : List ℚ).length ∧
      (1 : Nat) < ([4, 5, 6] : List ℚ).length) ∧
    (linear_regression_subset ([1, 2, 3] : List ℚ) [4, 5, 6] (some []) =
        some ⟨0, 0, 0, false⟩ ∧
      linear_regression_subset ([1, 2, 3] : List ℚ) [4, 5, 6] (some [1]) =
        some ⟨0, 0, 0, false⟩ ∧
      (([1, 2, 3] : List ℚ).length = ([4, 5, 6] : List ℚ).length →
        linear_regression_subset ([1, 2, 3] : List ℚ) [4, 5, 6] none =
          linear_regression_subset ([1, 2, 3] : List ℚ) [4, 5, 6]
            (some (List.range ([1, 2, 3] : List ℚ).length)))) :=
  ⟨⟨by norm_num, by norm_num⟩,
    claim_C4 [1, 2, 3] [4, 5, 6] 1 (by norm_num) (by norm_num)⟩

lemma npIndex_length (xs : List α) : ∀ (idx : List Nat) (out : List α),
    npIndex xs idx = some out → out.length = idx.length := by
  intro idx
  induction idx with
  | nil => intro out h; simp [npIndex] at h; simp [← h]
  | cons i is ih =>
    intro out h
    simp only [npIndex, Option.bind_eq_bind] at h
    cases hx : xs[i]? with
    | none => rw [hx] at h; simp at h
    | some a =>
      rw [hx] at h
      simp only [Option.some_bind] at h
      cases hrest : npIndex xs is with
      | none => rw [hrest] at h; simp at h
      | some rest =>
        rw [hrest] at h
        simp only [Option.some_bind, Option.pure_def, Option.some.injEq] at h
        rw [← h]
        simp [ih rest hrest]

lemma run_analysis_inv (pi : α) (sqrt log : α → α) (raw : RawData α)
    (config : Config α) (uidx : Option (List Nat)) (res : AnalysisResult α)
    (h : run_analysis pi sqrt log raw config uidx = some res) :
    ∃ x_data amp_data phase_data,
      dfCol raw config.COL_FREQ_SQRT = some x_data ∧
      dfCol raw config.COL_AMP = some amp_data ∧
      dfCol raw config.COL_PHASE = some phase_data ∧
      (((uidx.getD (List.range x_data.length)).length < 2 ∧
          res.used_indices = [] ∧ res.freq_range_min = 0 ∧
          res.freq_range_max = 0 ∧ res.kd_min = some 0 ∧ res.kd_max = some 0 ∧
          res.alpha_amp = none ∧ res.alpha_phase = none ∧
          res.alpha_ratio = none) ∨
        (2 ≤ (uidx.getD (List.range x_data.length)).length ∧
          ∃ th x_sub fit_phase fit_amp,
            th = (raw.metadata.lookup "試料厚").getD config.DEFAULT_THICKNESS_UM ∧
            npIndex x_data (uidx.getD (List.range x_data.length)) = some x_sub ∧
            linear_regression_subset x_data phase_data
              (some (uidx.getD (List.range x_data.length))) = some fit_phase ∧
            linear_regression_subset x_data (amp_data.map log)
              (some (uidx.getD (List.range x_data.length))) = some fit_amp ∧
            x_sub.length = (uidx.getD (List.range x_data.length)).length ∧
            res.used_indices = uidx.getD (List.range x_data.length) ∧
            res.thickness_um = some th ∧
            res.alpha_amp = some (calculate_alpha_from_slope pi fit_amp.slope th) ∧
            res.alpha_phase = some (calculate_alpha_from_slope pi fit_phase.slope th) ∧
            res.alpha_ratio = some
              (if 0 < calculate_alpha_from_slope pi fit_amp.slope th ∧
                  0 < calculate_alpha_from_slope pi fit_phase.slope th
                then min (calculate_alpha_from_slope pi fit_amp.slope th)
                    (calculate_alpha_from_slope pi fit_phase.slope th)
                  / max (calculate_alpha_from_slope pi fit_amp.slope th)
                    (calculate_alpha_from_slope pi fit_phase.slope th)
                else 0) ∧
            res.freq_range_min = npMin x_sub ∧
            res.freq_range_max = npMax x_sub ∧
            res.kd_min = some (if 0 < (calculate_kd sqrt pi
                  (x_sub.map fun v => v ^ 2)
                  (calculate_alpha_from_slope pi fit_phase.slope th) th).length
              then npMin (calculate_kd sqrt pi (x_sub.map fun v => v ^ 2)
                  (calculate_alpha_from_slope pi fit_phase.slope th) th)
              else 0) ∧
            res.kd_max = some (if 0 < (calculate_kd sqrt pi
                  (x_sub.map fun v => v ^ 2)
                  (calculate_alpha_from_slope pi fit_phase.slope th) th).length
              then npMax (calculate_kd sqrt pi (x_sub.map fun v => v ^ 2)
                  (calculate_alpha_from_slope pi fit_phase.slope th) th)
              else 0) ∧
            res.x_position = raw.metadata.lookup config.KEY_X_POS ∧
            res.y_position = raw.metadata.lookup config.KEY_Y_POS ∧
            res.z_position = raw.metadata.lookup config.KEY_Z_POS)) := by
  rw [run_analysis] at h
  cases hx : dfCol raw config.COL_FREQ_SQRT with
  | none => rw [hx] at h; simp at h
  | some x_data =>
  rw [hx] at h
  simp only [Option.bind_eq_bind, Option.some_bind] at h
  cases ha : dfCol raw config.COL_AMP with
  | none => rw [ha] at h; simp at h
  | some amp_data =>
  rw [ha] at h
  simp only [Option.some_bind] at h
  cases hp : dfCol raw config.COL_PHASE with
  | none => rw [hp] at h; simp at h
  | some phase_data =>
  rw [hp] at h
  simp only [Option.some_bind] at h
  refine ⟨x_data, amp_data, phase_data, rfl, rfl, rfl, ?_⟩
  by_cases hlt : (uidx.getD (List.range x_data.length)).length < 2
  · rw [if_pos hlt] at h
    simp only [Option.pure_def, Option.some.injEq] at h
    subst h
    exact Or.inl ⟨hlt, rfl, rfl, rfl, rfl, rfl, rfl, rfl, rfl⟩
  · rw [if_neg hlt] at h
    cases hxs : npIndex x_data (uidx.getD (List.range x_data.length)) with
    | none => rw [hxs] at h; simp at h
    | some x_sub =>
    rw [hxs] at h
    simp only [Option.some_bind] at h
    cases hfp : linear_regression_subset x_data phase_data
        (some (uidx.getD (List.range x_data.length))) with
    | none => rw [hfp] at h; simp at h
    | some fit_phase =>
    rw [hfp] at h
    simp only [Option.some_bind] at h
    cases hfa : linear_regression_subset x_data (amp_data.map log)
        (some (uidx.getD (List.range x_data.length))) with
    | none => rw [hfa] at h; simp at h
    | some fit_amp =>
    rw [hfa] at h
    simp only [Option.some_bind, Option.pure_def, Option.some.injEq] at h
    subst h
    exact Or.inr ⟨not_lt.mp hlt, _, x_sub, fit_phase, fit_amp, rfl, rfl, rfl, rfl,
      npIndex_length x_data _ x_sub hxs, rfl, rfl, rfl, rfl, rfl, rfl, rfl, rfl, rfl,
      rfl, rfl, rfl⟩

/-- C7: in every `AnalysisResult` the Analysis Orchestrator produces with at
least 2 selected indices, `alpha_ratio` equals
`min(alpha_amp, alpha_phase) / max(alpha_amp, alpha_phase)` — a value in
`(0, 1]` — when both diffusivity estimates are strictly positive, equals 0
when either estimate is non-positive, and equals exactly 1 when both
estimates are equal and positive. -/
theorem claim_C7 (pi : α) (sqrt log : α → α) (raw : RawData α)
    (config : Config α) (uidx : Option (List Nat)) (res : AnalysisResult α)
    (h : run_analysis pi sqrt log raw config uidx = some res)
    (h2 : 2 ≤ res.used_indices.length) :
    ∃ a_amp a_phase : α,
      res.alpha_amp = some a_amp ∧ res.alpha_phase = some a_phase ∧
      res.alpha_ratio = some (if 0 < a_amp ∧ 0 < a_phase
        then min a_amp a_phase / max a_amp a_phase else 0) ∧
      (0 < a_amp ∧ 0 < a_phase →
        ∃ r, res.alpha_ratio = some r ∧ r = min a_amp a_phase / max a_amp a_phase ∧
          0 < r ∧ r ≤ 1) ∧
      (a_amp = a_phase → 0 < a_phase → res.alpha_ratio = some 1) ∧
      (a_amp ≤ 0 ∨ a_phase ≤ 0 → res.alpha_ratio = some 0) := by
  rcases run_analysis_inv pi sqrt log raw config uidx res h with
    ⟨x_data, amp_data, phase_data, hx, ha, hp, hcases⟩
  rcases hcases with ⟨hlt, hui, -⟩ | ⟨hge, th, x_sub, fit_phase, fit_amp, hth, hxs,
    hfp, hfa, hxl, hui, hthu, hamp, hph, hratio, -⟩
  · rw [hui] at h2; simp at h2
  · refine ⟨calculate_alpha_from_slope pi fit_amp.slope th,
      calculate_alpha_from_slope pi fit_phase.slope th, hamp, hph, hratio,
      ?_, ?_, ?_⟩
    · rintro ⟨hA, hB⟩
      refine ⟨_, hratio, ?_, ?_, ?_⟩
      · rw [if_pos ⟨hA, hB⟩]
      · have hmin : 0 < min (calculate_alpha_from_slope pi fit_amp.slope th)
            (calculate_alpha_from_slope pi fit_phase.slope th) := lt_min hA hB
        have hmax : 0 < max (calculate_alpha_from_slope pi fit_amp.slope th)
            (calculate_alpha_from_slope pi fit_phase.slope th) :=
          lt_of_lt_of_le hA (le_max_left _ _)
        rw [if_pos ⟨hA, hB⟩]
        exact div_pos hmin hmax
      · have hmax : 0 < max (calculate_alpha_from_slope pi fit_amp.slope th)
            (calculate_alpha_from_slope pi fit_phase.slope th) :=
          lt_of_lt_of_le hA (le_max_left _ _)
        rw [if_pos ⟨hA, hB⟩]
        exact (div_le_one hmax).mpr (min_le_max)
    · intro heq hpos
      rw [hratio, heq]
      rw [if_pos ⟨hpos, hpos⟩]
      rw [min_self, max_self, div_self (ne_of_gt hpos)]
    · intro hnp
      rw [hratio, if_neg]
      rintro ⟨hA, hB⟩
      rcases hnp with hn | hn
      · exact absurd hA (not_lt.mpr hn)
      · exact absurd hB (not_lt.mpr hn)

/-- Witness for C7: a concrete two-row run over `ℚ` (with `pi = 3` and
identity stand-ins for `sqrt`/`log`); the theorem is applied to its output. -/
theorem claim_C7_witness :
    ∃ res : AnalysisResult ℚ,
      run_analysis 3 id id
        ⟨[("f", [1, 2]), ("a", [1, 3]), ("p", [5, 1])], [], "t"⟩
        ⟨"f", "a", "p", 50, "xp", "yp", "zp"⟩ (some [0, 1]) = some res ∧
      2 ≤ res.used_indices.length ∧
      ∃ a_amp a_phase : ℚ,
        res.alpha_amp = some a_amp ∧ res.alpha_phase = some a_phase ∧
        res.alpha_ratio = some (if 0 < a_amp ∧ 0 < a_phase
          then min a_amp a_phase / max a_amp a_phase else 0) := by
  have hne : ¬ ∀ u ∈ selectD ([1, 2] : List ℚ) [0, 1],
      ∀ v ∈ selectD ([1, 2] : List ℚ) [0, 1], u = v := by
    intro hall
    have h1 : (1 : ℚ) ∈ selectD ([1, 2] : List ℚ) [0, 1] := by norm_num [selectD]
    have h2 : (2 : ℚ) ∈ selectD ([1, 2] : List ℚ) [0, 1] := by norm_num [selectD]
    have := hall 1 h1 2 h2
    norm_num at this
  have hidx : ∀ i ∈ ([0, 1] : List Nat), i < ([1, 2] : List ℚ).length := by
    intro i hi
    simp only [List.mem_cons, List.not_mem_nil, or_false] at hi
    rcases hi with rfl | rfl <;> norm_num
  have hfp := linear_regression_subset_spec ([1, 2] : List ℚ) [5, 1] [0, 1]
    (by norm_num) hidx (by norm_num) hne
  have hfa := linear_regression_subset_spec ([1, 2] : List ℚ) [1, 3] [0, 1]
    (by norm_num) hidx (by norm_num) hne
  have hex : ∃ res : AnalysisResult ℚ,
      run_analysis 3 id id
        ⟨[("f", [1, 2]), ("a", [1, 3]), ("p", [5, 1])], [], "t"⟩
        ⟨"f", "a", "p", 50, "xp", "yp", "zp"⟩ (some [0, 1]) = some res := by
    rw [run_analysis]
    simp only [dfCol, Option.bind_eq_bind, Option.getD_some]
    simp [List.lookup, npIndex]
    rw [hfp, hfa]
    exact ⟨_, rfl⟩
  rcases hex with ⟨res, hres⟩
  have h2 : 2 ≤ res.used_indices.length := by
    rcases run_analysis_inv _ _ _ _ _ _ _ hres with ⟨xd, ad, pd, hx, ha, hp, hc⟩
    rcases hc with ⟨hlt, -⟩ | ⟨hge, th, xs2, fp, fa, -, -, -, -, -, hui, -⟩
    · simp at hlt
    · rw [hui]
      simpa using hge
  rcases claim_C7 3 id id _ _ _ _ hres h2 with
    ⟨a_amp, a_phase, hamp, hph, hratio, -⟩
  exact ⟨res, hres, h2, a_amp, a_phase, hamp, hph, hratio⟩

lemma maskIndicesFrom_mem_lt : ∀ (m : List Bool) (k i : Nat),
    i ∈ maskIndicesFrom k m → i < k + m.length := by
  intro m
  induction m with
  | nil => intro k i h; simp [maskIndicesFrom] at h
  | cons b bs ih =>
    intro k i h
    cases b
    · rw [maskIndicesFrom, if_neg (by simp)] at h
      have := ih (k + 1) i h
      simp only [List.length_cons]
      omega
    · rw [maskIndicesFrom, if_pos rfl] at h
      simp only [List.length_cons]
      rcases List.mem_cons.mp h with rfl | h2
      · omega
      · have := ih (k + 1) i h2
        omega

lemma maskIndicesFrom_selectD (xs : List α) : ∀ (m : List Bool) (k : Nat),
    k + m.length ≤ xs.length →
    selectD xs (maskIndicesFrom k m) = maskSelect (xs.drop k) m := by
  intro m
  induction m with
  | nil => intro k h; simp [maskIndicesFrom, selectD, maskSelect]
  | cons b bs ih =>
    intro k h
    have hk : k < xs.length := by
      simp only [List.length_cons] at h
      omega
    have hrest : k + 1 + bs.length ≤ xs.length := by
      simp only [List.length_cons] at h
      omega
    have hdrop : xs.drop k = xs[k] :: xs.drop (k + 1) :=
      List.drop_eq_getElem_cons hk
    cases b
    · rw [maskIndicesFrom, if_neg (by simp), hdrop, ih (k + 1) hrest]
      simp [maskSelect, -List.getElem_cons_drop]
    · rw [maskIndicesFrom, if_pos rfl, hdrop]
      simp only [selectD, List.map_cons]
      rw [List.getD_eq_getElem xs 0 hk]
      have := ih (k + 1) hrest
      rw [selectD] at this
      rw [this]
      simp [maskSelect, -List.getElem_cons_drop]

lemma maskSelect_eq_selectD (xs : List α) (m : List Bool)
    (h : m.length ≤ xs.length) :
    maskSelect xs m = selectD xs (maskIndices m) := by
  rw [maskIndices, maskIndicesFrom_selectD xs m 0 (by omega), List.drop_zero]

lemma foldl_min_le (xs : List α) : ∀ x : α, xs.foldl min x ≤ x := by
  induction xs with
  | nil => intro x; simp
  | cons a l ih =>
    intro x
    calc l.foldl min (min x a) ≤ min x a := ih _
      _ ≤ x := min_le_left _ _

lemma le_foldl_max (xs : List α) : ∀ x : α, x ≤ xs.foldl max x := by
  induction xs with
  | nil => intro x; simp
  | cons a l ih =>
    intro x
    calc x ≤ max x a := le_max_left _ _
      _ ≤ l.foldl max (max x a) := ih _

lemma npMin_le_npMax (xs : List α) (h : xs ≠ []) : npMin xs ≤ npMax xs := by
  cases xs with
  | nil => exact absurd rfl h
  | cons a l =>
    calc npMin (a :: l) = l.foldl min a := rfl
      _ ≤ a := foldl_min_le l a
      _ ≤ l.foldl max a := le_foldl_max l a
      _ = npMax (a :: l) := rfl

lemma calculate_kd_length (sqrt : α → α) (pi : α) (freq : List α)
    (alpha t : α) : (calculate_kd sqrt pi freq alpha t).length = freq.length := by
  rw [calculate_kd]
  split <;> simp

lemma update_eq_run_strip (pi : α) (sqrt log : α → α) (raw : RawData α)
    (config : Config α) (range_mask manual_mask : List Bool)
    (prev : Option (AnalysisResult α)) (x_data : List α)
    (hx : dfCol raw config.COL_FREQ_SQRT = some x_data)
    (hr : range_mask.length = x_data.length)
    (hm : manual_mask.length = x_data.length)
    (hge : 2 ≤ (maskIndices (List.zipWith (fun a b => a && b)
      range_mask manual_mask)).length) :
    update_plot_and_calc pi sqrt log raw config range_mask manual_mask prev
      = Option.map (fun r => some (stripPositions r))
          (run_analysis pi sqrt log raw config
            (some (maskIndices (List.zipWith (fun a b => a && b)
              range_mask manual_mask)))) := by
  have hmlen : (List.zipWith (fun a b : Bool => a && b)
      range_mask manual_mask).length = x_data.length := by
    simp [hr, hm]
  have hvalid : ∀ i ∈ maskIndices (List.zipWith (fun a b : Bool => a && b)
      range_mask manual_mask), i < x_data.length := by
    intro i hi
    have h2 := maskIndicesFrom_mem_lt _ 0 i hi
    rw [hmlen] at h2
    omega
  have hnp : npIndex x_data (maskIndices (List.zipWith (fun a b : Bool => a && b)
        range_mask manual_mask))
      = some (selectD x_data (maskIndices (List.zipWith (fun a b : Bool => a && b)
        range_mask manual_mask))) :=
    npIndex_eq_selectD _ _ hvalid
  rw [update_plot_and_calc, run_analysis, hx]
  simp only [Option.bind_eq_bind, Option.some_bind]
  cases ha : dfCol raw config.COL_AMP with
  | none => simp
  | some amp_data =>
  simp only [Option.some_bind]
  cases hp : dfCol raw config.COL_PHASE with
  | none => simp
  | some phase_data =>
  simp only [Option.some_bind, Option.getD_some]
  rw [if_neg (not_lt.mpr hge), if_neg (not_lt.mpr hge), hnp]
  simp only [Option.some_bind]
  cases hfp : linear_regression_subset x_data phase_data
      (some (maskIndices (List.zipWith (fun a b : Bool => a && b)
        range_mask manual_mask))) with
  | none => simp
  | some fit_phase =>
  simp only [Option.some_bind]
  cases hfa : linear_regression_subset x_data (amp_data.map log)
      (some (maskIndices (List.zipWith (fun a b : Bool => a && b)
        range_mask manual_mask))) with
  | none => simp
  | some fit_amp =>
  simp only [Option.some_bind, Option.pure_def, Option.map_some]
  have hklen : 0 < (calculate_kd sqrt pi
      ((selectD x_data (maskIndices (List.zipWith (fun a b : Bool => a && b)
        range_mask manual_mask))).map fun v => v ^ 2)
      (calculate_alpha_from_slope pi fit_phase.slope
        ((raw.metadata.lookup "試料厚").getD config.DEFAULT_THICKNESS_UM))
      ((raw.metadata.lookup "試料厚").getD config.DEFAULT_THICKNESS_UM)).length := by
    rw [calculate_kd_length]
    simp only [List.length_map, selectD_length]
    omega
  rw [if_pos hklen, if_pos hklen,
    maskSelect_eq_selectD x_data _ (le_of_eq hmlen)]
  simp [stripPositions]

lemma run_analysis_bounds (pi : α) (sqrt log : α → α) (raw : RawData α)
    (config : Config α) (uidx : Option (List Nat)) (res : AnalysisResult α)
    (h : run_analysis pi sqrt log raw config uidx = some res) :
    (res.freq_range_min ≤ res.freq_range_max ∧
      ∃ kmn kmx, res.kd_min = some kmn ∧ res.kd_max = some kmx ∧ kmn ≤ kmx) ∧
    (res.used_indices.length < 2 →
      res.freq_range_min = 0 ∧ res.freq_range_max = 0 ∧
      res.kd_min = some 0 ∧ res.kd_max = some 0) ∧
    (2 ≤ res.used_indices.length →
      ∃ x_data x_sub th a_phase,
        dfCol raw config.COL_FREQ_SQRT = some x_data ∧
        npIndex x_data res.used_indices = some x_sub ∧
        res.thickness_um = some th ∧ res.alpha_phase = some a_phase ∧
        res.freq_range_min = npMin x_sub ∧ res.freq_range_max = npMax x_sub ∧
        res.kd_min = some (npMin (calculate_kd sqrt pi
          (x_sub.map fun v => v ^ 2) a_phase th)) ∧
        res.kd_max = some (npMax (calculate_kd sqrt pi
          (x_sub.map fun v => v ^ 2) a_phase th))) := by
  rcases run_analysis_inv pi sqrt log raw config uidx res h with
    ⟨x_data, amp_data, phase_data, hx, ha, hp, hc⟩
  rcases hc with ⟨hlt, hui, hfmn, hfmx, hkmn, hkmx, -⟩ |
    ⟨hge, th, x_sub, fit_phase, fit_amp, hth, hxs, hfp, hfa, hxl, hui, hthu,
      hamp, hph, hratio, hfmn, hfmx, hkmn, hkmx, -⟩
  · refine ⟨⟨by rw [hfmn, hfmx], 0, 0, hkmn, hkmx, le_refl 0⟩, ?_, ?_⟩
    · intro _
      exact ⟨hfmn, hfmx, hkmn, hkmx⟩
    · intro h2
      rw [hui] at h2
      simp at h2
  · have hxlen : 2 ≤ x_sub.length := by omega
    have hxne : x_sub ≠ [] := by
      intro h0
      rw [h0] at hxlen
      simp at hxlen
    have hkdlen : 0 < (calculate_kd sqrt pi (x_sub.map fun v => v ^ 2)
        (calculate_alpha_from_slope pi fit_phase.slope th) th).length := by
      rw [calculate_kd_length]
      simp only [List.length_map]
      omega
    have hkdne : calculate_kd sqrt pi (x_sub.map fun v => v ^ 2)
        (calculate_alpha_from_slope pi fit_phase.slope th) th ≠ [] := by
      intro h0
      rw [h0] at hkdlen
      simp at hkdlen
    rw [if_pos hkdlen] at hkmn hkmx
    refine ⟨⟨?_, _, _, hkmn, hkmx, npMin_le_npMax _ hkdne⟩, ?_, ?_⟩
    · rw [hfmn, hfmx]
      exact npMin_le_npMax x_sub hxne
    · intro h2
      rw [hui] at h2
      omega
    · intro _
      refine ⟨x_data, x_sub, th, calculate_alpha_from_slope pi fit_phase.slope th,
        hx, ?_, hthu, hph, hfmn, hfmx, hkmn, hkmx⟩
      rw [hui]
      exact hxs

/-- C10: every `AnalysisResult` assembled by the Analysis Orchestrator
satisfies `freq_range_min ≤ freq_range_max` and `kd_min ≤ kd_max`; with at
least 2 selected indices these four fields are the minimum and maximum of the
selected sqrt-frequency values and of the kd values computed over them, and
with fewer than 2 selected indices all four fields equal 0.  A record stored
by the Interactive Range Selector on an update with at least 2 active points
satisfies the same min/max bounds (with fewer than 2 active points the
selector stores no new record). -/
theorem claim_C10 (pi : α) (sqrt log : α → α) (raw : RawData α)
    (config : Config α) :
    (∀ (uidx : Option (List Nat)) (res : AnalysisResult α),
      run_analysis pi sqrt log raw config uidx = some res →
      (res.freq_range_min ≤ res.freq_range_max ∧
        ∃ kmn kmx, res.kd_min = some kmn ∧ res.kd_max = some kmx ∧ kmn ≤ kmx) ∧
      (res.used_indices.length < 2 →
        res.freq_range_min = 0 ∧ res.freq_range_max = 0 ∧
        res.kd_min = some 0 ∧ res.kd_max = some 0) ∧
      (2 ≤ res.used_indices.length →
        ∃ x_data x_sub th a_phase,
          dfCol raw config.COL_FREQ_SQRT = some x_data ∧
          npIndex x_data res.used_indices = some x_sub ∧
          res.thickness_um = some th ∧ res.alpha_phase = some a_phase ∧
          res.freq_range_min = npMin x_sub ∧ res.freq_range_max = npMax x_sub ∧
          res.kd_min = some (npMin (calculate_kd sqrt pi
            (x_sub.map fun v => v ^ 2) a_phase th)) ∧
          res.kd_max = some (npMax (calculate_kd sqrt pi
            (x_sub.map fun v => v ^ 2) a_phase th)))) ∧
    (∀ (range_mask manual_mask : List Bool) (prev : Option (AnalysisResult α))
        (x_data : List α) (res : AnalysisResult α),
      dfCol raw config.COL_FREQ_SQRT = some x_data →
      range_mask.length = x_data.length →
      manual_mask.length = x_data.length →
      2 ≤ (maskIndices (List.zipWith (fun a b => a && b)
        range_mask manual_mask)).length →
      update_plot_and_calc pi sqrt log raw config range_mask manual_mask prev
        = some (some res) →
      res.freq_range_min ≤ res.freq_range_max ∧
        ∃ kmn kmx, res.kd_min = some kmn ∧ res.kd_max = some kmx ∧ kmn ≤ kmx) := by
  constructor
  · intro uidx res h
    exact run_analysis_bounds pi sqrt log raw config uidx res h
  · intro range_mask manual_mask prev x_data res hx hr hm hge hupd
    have hstrip := update_eq_run_strip pi sqrt log raw config range_mask
      manual_mask prev x_data hx hr hm hge
    rw [hupd] at hstrip
    cases hrun : run_analysis pi sqrt log raw config
        (some (maskIndices (List.zipWith (fun a b => a && b)
          range_mask manual_mask))) with
    | none =>
      rw [hrun] at hstrip
      simp at hstrip
    | some res2 =>
      rw [hrun] at hstrip
      simp only [Option.map_some', Option.some.injEq] at hstrip
      have hb := (run_analysis_bounds pi sqrt log raw config _ res2 hrun).1
      rw [hstrip]
      simpa [stripPositions] using hb

lemma run_example_exists (meta : List (String × ℚ)) :
    ∃ res : AnalysisResult ℚ,
      run_analysis 3 id id
        ⟨[("f", [1, 2]), ("a", [1, 3]), ("p", [5, 1])], meta, "t"⟩
        ⟨"f", "a", "p", 50, "xp", "yp", "zp"⟩ (some [0, 1]) = some res := by
  have hne : ¬ ∀ u ∈ selectD ([1, 2] : List ℚ) [0, 1],
      ∀ v ∈ selectD ([1, 2] : List ℚ) [0, 1], u = v := by
    intro hall
    have h1 : (1 : ℚ) ∈ selectD ([1, 2] : List ℚ) [0, 1] := by norm_num [selectD]
    have h2 : (2 : ℚ) ∈ selectD ([1, 2] : List ℚ) [0, 1] := by norm_num [selectD]
    have := hall 1 h1 2 h2
    norm_num at this
  have hidx : ∀ i ∈ ([0, 1] : List Nat), i < ([1, 2] : List ℚ).length := by
    intro i hi
    simp only [List.mem_cons, List.not_mem_nil, or_false] at hi
    rcases hi with rfl | rfl <;> norm_num
  have hfp := linear_regression_subset_spec ([1, 2] : List ℚ) [5, 1] [0, 1]
    (by norm_num) hidx (by norm_num) hne
  have hfa := linear_regression_subset_spec ([1, 2] : List ℚ) [1, 3] [0, 1]
    (by norm_num) hidx (by norm_num) hne
  rw [run_analysis]
  simp only [dfCol, Option.bind_eq_bind, Option.getD_some]
  simp [List.lookup, npIndex]
  rw [hfp, hfa]
  exact ⟨_, rfl⟩

/-- Witness for C10: the orchestrator part of the theorem applied to a
concrete two-row run over `ℚ`. -/
theorem claim_C10_witness :
    ∃ res : AnalysisResult ℚ,
      run_analysis 3 id id
        ⟨[("f", [1, 2]), ("a", [1, 3]), ("p", [5, 1])], [], "t"⟩
        ⟨"f", "a", "p", 50, "xp", "yp", "zp"⟩ (some [0, 1]) = some res ∧
      res.freq_range_min ≤ res.freq_range_max ∧
      ∃ kmn kmx, res.kd_min = some kmn ∧ res.kd_max = some kmx ∧ kmn ≤ kmx := by
  rcases run_example_exists [] with ⟨res, hres⟩
  have hb := ((claim_C10 3 id id
    ⟨[("f", [1, 2]), ("a", [1, 3]), ("p", [5, 1])], [], "t"⟩
    ⟨"f", "a", "p", 50, "xp", "yp", "zp"⟩).1 (some [0, 1]) res hres).1
  exact ⟨res, hres, hb.1, hb.2⟩

/-- C1 (amended): after a mask change that leaves at least 2 active points,
the result stored by the Interactive Range Selector equals the Analysis
Orchestrator's output on the active indices (the logical AND of both masks)
on every field except `x_position`, `y_position` and `z_position`, which
`run_analysis` fills from metadata but `update_plot_and_calc` never sets;
with fewer than 2 active points the selector keeps its previously stored
result instead of producing the Orchestrator's empty record.  (The claim as
stated asserts equality of all fields including the position fields; see the
counterexample.) -/
theorem claim_C1_amended (pi : α) (sqrt log : α → α) (raw : RawData α)
    (config : Config α) (range_mask manual_mask : List Bool)
    (prev : Option (AnalysisResult α)) (x_data amp_data phase_data : List α)
    (hx : dfCol raw config.COL_FREQ_SQRT = some x_data)
    (ha : dfCol raw config.COL_AMP = some amp_data)
    (hp : dfCol raw config.COL_PHASE = some phase_data)
    (hr : range_mask.length = x_data.length)
    (hm : manual_mask.length = x_data.length) :
    (2 ≤ (maskIndices (List.zipWith (fun a b => a && b)
        range_mask manual_mask)).length →
      update_plot_and_calc pi sqrt log raw config range_mask manual_mask prev
        = Option.map (fun r => some (stripPositions r))
            (run_analysis pi sqrt log raw config
              (some (maskIndices (List.zipWith (fun a b => a && b)
                range_mask manual_mask))))) ∧
    ((maskIndices (List.zipWith (fun a b => a && b)
        range_mask manual_mask)).length < 2 →
      update_plot_and_calc pi sqrt log raw config range_mask manual_mask prev
        = some prev) := by
  constructor
  · intro hge
    exact update_eq_run_strip pi sqrt log raw config range_mask manual_mask
      prev x_data hx hr hm hge
  · intro hlt
    rw [update_plot_and_calc, hx, ha, hp]
    simp only [Option.bind_eq_bind, Option.some_bind]
    rw [if_pos hlt]
    rfl

/-- Counterexample to C1 as stated: on a parsed file whose metadata contains
the configured x-position key, the Orchestrator's record carries
`x_position = some 7` while the record the Selector stores after the same
mask change has `x_position = none`, so the stored result does not equal
`run_analysis` on all fields. -/
theorem claim_C1_counterexample :
    ¬ (update_plot_and_calc (α := ℚ) 3 id id
        ⟨[("f", [1, 2]), ("a", [1, 3]), ("p", [5, 1])], [("xp", 7)], "t"⟩
        ⟨"f", "a", "p", 50, "xp", "yp", "zp"⟩ [true, true] [true, true] none
      = Option.map (fun r => some r)
          (run_analysis 3 id id
            ⟨[("f", [1, 2]), ("a", [1, 3]), ("p", [5, 1])], [("xp", 7)], "t"⟩
            ⟨"f", "a", "p", 50, "xp", "yp", "zp"⟩
            (some (maskIndices (List.zipWith (fun a b => a && b)
              [true, true] [true, true]))))) := by
  intro hclaim
  have hmask : maskIndices (List.zipWith (fun a b : Bool => a && b)
      [true, true] [true, true]) = [0, 1] := by
    simp [maskIndices, maskIndicesFrom]
  rcases run_example_exists [("xp", 7)] with ⟨res, hres⟩
  have hxp : res.x_position = some 7 := by
    rcases run_analysis_inv _ _ _ _ _ _ _ hres with ⟨xd, ad, pd, hx, ha, hp, hc⟩
    rcases hc with ⟨hlt, -⟩ | ⟨-, th, xs2, fp, fa, -, -, -, -, -, -, -, -, -, -,
      -, -, -, -, hxpos, -⟩
    · simp at hlt
    · rw [hxpos]
      simp [List.lookup]
  have hstrip := update_eq_run_strip (α := ℚ) 3 id id
    ⟨[("f", [1, 2]), ("a", [1, 3]), ("p", [5, 1])], [("xp", 7)], "t"⟩
    ⟨"f", "a", "p", 50, "xp", "yp", "zp"⟩ [true, true] [true, true] none [1, 2]
    (by simp [dfCol, List.lookup]) (by norm_num) (by norm_num)
    (by rw [hmask]; norm_num)
  rw [hmask] at hclaim hstrip
  rw [hres] at hclaim hstrip
  rw [hstrip] at hclaim
  simp only [Option.map_some', Option.some.injEq] at hclaim
  have hfield := congrArg (fun r : AnalysisResult ℚ => r.x_position) hclaim
  simp only [stripPositions] at hfield
  rw [hxp] at hfield
  simp at hfield

/-- Witness for C1 (amended) on the same concrete file and the all-true
masks. -/
theorem claim_C1_witness :
    (dfCol (⟨[("f", [1, 2]), ("a", [1, 3]), ("p", [5, 1])], [("xp", 7)], "t"⟩ :
        RawData ℚ) "f" = some [1, 2] ∧
      ([true, true] : List Bool).length = ([1, 2] : List ℚ).length) ∧
    ((2 ≤ (maskIndices (List.zipWith (fun a b => a && b)
        [true, true] [true, true])).length →
      update_plot_and_calc (α := ℚ) 3 id id
        ⟨[("f", [1, 2]), ("a", [1, 3]), ("p", [5, 1])], [("xp", 7)], "t"⟩
        ⟨"f", "a", "p", 50, "xp", "yp", "zp"⟩ [true, true] [true, true] none
        = Option.map (fun r => some (stripPositions r))
            (run_analysis 3 id id
              ⟨[("f", [1, 2]), ("a", [1, 3]), ("p", [5, 1])], [("xp", 7)], "t"⟩
              ⟨"f", "a", "p", 50, "xp", "yp", "zp"⟩
              (some (maskIndices (List.zipWith (fun a b => a && b)
                [true, true] [true, true]))))) ∧
    ((maskIndices (List.zipWith (fun a b => a && b)
        [true, true] [true, true])).length < 2 →
      update_plot_and_calc (α := ℚ) 3 id id
        ⟨[("f", [1, 2]), ("a", [1, 3]), ("p", [5, 1])], [("xp", 7)], "t"⟩
        ⟨"f", "a", "p", 50, "xp", "yp", "zp"⟩ [true, true] [true, true] none
        = some none)) :=
  ⟨⟨by simp [dfCol, List.lookup], by norm_num⟩,
    claim_C1_amended 3 id id
      ⟨[("f", [1, 2]), ("a", [1, 3]), ("p", [5, 1])], [("xp", 7)], "t"⟩
      ⟨"f", "a", "p", 50, "xp", "yp", "zp"⟩ [true, true] [true, true] none
      [1, 2] [1, 3] [5, 1]
      (by simp [dfCol, List.lookup]) (by simp [dfCol, List.lookup])
      (by simp [dfCol, List.lookup]) (by norm_num) (by norm_num)⟩

end TWA
